import Mathlib

/-!
Verification of the chunk-aggregation, metrics and epoch-loss core of
`note_classification.py`.

The script trains a sequence classifier over clinical notes split into
overlapping chunks.  The embedded core covers:
* `_normal_density` and the Gaussian window weighting of `_compute_wloss`
  (weighted multi-chunk aggregation),
* the ones-vector fallback of `_compute_wloss` when weighting is disabled
  and no fixed batch size is configured,
* `_collate_fn` / `_collate_fn_batch`,
* the per-epoch training-loss accumulation and normalization of `training`,
* the command-line configuration resolution (batching vs. weighting),
* the per-class confusion accumulator `metrics.TaskMetrics` (its module is
  not part of the sources, so it is modelled from the specification).

Chunk counts are written as `m + 1` throughout: a unit always carries at
least one chunk (a zero-chunk unit is a structural error upstream of the
embedded core, raised by the tensor indexing in the script).
-/

open scoped BigOperators

/-- Models `_normal_density(x, mu, sigma)`: the Gaussian density
`(2 * pi * sigma^2) ^ (-1/2) * exp(-(1/2) * (x - mu)^2 / sigma^2)`. -/
noncomputable def normal_density (x mu sigma : ℝ) : ℝ :=
  (2 * Real.pi * sigma ^ 2) ^ (-(1 / 2) : ℝ) *
    Real.exp (-(1 / 2) * (x - mu) ^ 2 / sigma ^ 2)

/-- Gaussian weight vector built inside `_compute_wloss` for a unit of `m + 1`
chunks: `mid = float(int(M / 2))`; when `mid > 0` chunk `i` receives weight
`_normal_density(i / mid, 0, 1)`, otherwise (single chunk) the weight is `1`. -/
noncomputable def window_weights (m : ℕ) : Fin (m + 1) → ℝ :=
  if 0 < (m + 1) / 2 then
    fun i => normal_density ((i : ℝ) / (((m + 1) / 2 : ℕ) : ℝ)) 0 1
  else
    fun _ => 1

/-- Cross-entropy of one logit row against one target class, as computed by
`nn.functional.cross_entropy` on a `1 × C` input and a single target:
`log (sum_j exp z_j) - z_y`. -/
noncomputable def cross_entropy (C : ℕ) (z : Fin C → ℝ) (y : Fin C) : ℝ :=
  Real.log (∑ j, Real.exp (z j)) - z y

/-- Models `_compute_wloss(batch, outputs, batches, weighting_method)` on the two
branches that do not use a fixed batch size (`batches` falsy).  The unit holds
`m + 1` chunk logit rows and `m + 1` labels (the collated `labels` column).
With weighting, the Gaussian `window_weights` row is multiplied against the
stacked logits matrix; without weighting, a row of ones of length
`labels.shape[0]` is used instead.  In both branches the cross-entropy target
is `labels[0]` and the combined `1 × C` row is also returned. -/
noncomputable def compute_wloss (m C : ℕ) (weighting_method : Bool)
    (logits : Fin (m + 1) → Fin C → ℝ) (labels : Fin (m + 1) → Fin C) :
    ℝ × (Fin C → ℝ) :=
  if weighting_method then
    let weights := window_weights m
    let combined : Fin C → ℝ := fun j => ∑ i, weights i * logits i j
    (cross_entropy C combined (labels 0), combined)
  else
    let weights : Fin (m + 1) → ℝ := fun _ => 1
    let combined : Fin C → ℝ := fun j => ∑ i, weights i * logits i j
    (cross_entropy C combined (labels 0), combined)

/-- Models the fixed-batch branch of `_compute_wloss` (`batches` truthy and
weighting disabled): the model's native batched loss and its per-row logits are
returned unmodified. -/
def compute_wloss_batches (m C : ℕ) (native_loss : ℝ)
    (logits : Fin (m + 1) → Fin C → ℝ) : ℝ × (Fin (m + 1) → Fin C → ℝ) :=
  (native_loss, logits)

/-- Specification-side weight formula (spec §4.1, WeightedWindow): normalized
position `x_i = i / mid` with `mid = floor(M / 2)`, and Gaussian density weight
`(2 * pi * sigma^2) ^ (-1/2) * exp(-0.5 * (x_i - 0)^2 / sigma^2)` at `sigma = 1`. -/
noncomputable def spec_gaussian_weight (M i : ℕ) : ℝ :=
  (2 * Real.pi * (1 : ℝ) ^ 2) ^ (-(1 / 2) : ℝ) *
    Real.exp (-(1 / 2) * ((i : ℝ) / ((M / 2 : ℕ) : ℝ) - 0) ^ 2 / (1 : ℝ) ^ 2)

open Classical in
/-- Deterministic model of `torch.argmax` on one logit row of `c + 1` classes:
the first index attaining the maximum (a function of the logits only). -/
noncomputable def argmax (c : ℕ) (v : Fin (c + 1) → ℝ) : Fin (c + 1) :=
  (List.finRange (c + 1)).foldl (fun best i => if v best < v i then i else best) 0

/-- Gold/predicted pair fed to the metrics accumulator by the validation and
test loops in the weighting and single non-batch branches: gold is
`batch['labels'][0].item()`, predicted is `torch.argmax(output_logits).item()`
where `output_logits` is the combined row returned by `_compute_wloss`. -/
noncomputable def val_record (m c : ℕ) (weighting : Bool)
    (logits : Fin (m + 1) → Fin (c + 1) → ℝ)
    (labels : Fin (m + 1) → Fin (c + 1)) : Fin (c + 1) × Fin (c + 1) :=
  (labels 0, argmax c (compute_wloss m (c + 1) weighting logits labels).2)

/-- Operating mode of a run, fixed once by the configuration. -/
inductive Mode
  | Single
  | FixedBatch
  | WeightedWindow
deriving DecidableEq

/-- Warnings the configuration resolution can print while recovering. -/
inductive ConfigWarning
  | weightingIncompatibleWithBatching
  | weightingNeedsWindow
deriving DecidableEq

/-- Requested configuration surface: optional fixed batch size, the weighting
flag, and the window size parsed from the dataset file name (`none` models the
literal string None). -/
structure RunConfig where
  batch_size : Option ℕ
  weighting : Bool
  window_size : Option ℕ
deriving DecidableEq

/-- Effective configuration after resolution, together with the warnings
printed on the way. -/
structure ResolvedConfig where
  weighting : Bool
  mode : Mode
  warnings : List ConfigWarning
deriving DecidableEq

/-- Python truthiness of the optional `batch_size` argument (both `None` and
`0` are falsy). -/
def option_truthy : Option ℕ → Bool
  | none => false
  | some n => decide (n ≠ 0)

/-- Models the configuration resolution in `__main__`: a truthy `batch_size`
selects the fixed-batch collation and, if weighting was also requested,
disables it with a printed warning (the run continues); without a batch size,
a missing window also disables weighting with a warning (batch size 1), and
otherwise the weighting flag is kept and selects the weighted-window mode. -/
def resolve_config (cfg : RunConfig) : ResolvedConfig :=
  if option_truthy cfg.batch_size then
    if cfg.weighting then
      { weighting := false, mode := Mode.FixedBatch,
        warnings := [ConfigWarning.weightingIncompatibleWithBatching] }
    else
      { weighting := cfg.weighting, mode := Mode.FixedBatch, warnings := [] }
  else
    match cfg.window_size with
    | none =>
        if cfg.weighting then
          { weighting := false, mode := Mode.Single,
            warnings := [ConfigWarning.weightingNeedsWindow] }
        else
          { weighting := cfg.weighting, mode := Mode.Single, warnings := [] }
    | some _ =>
        { weighting := cfg.weighting,
          mode := if cfg.weighting then Mode.WeightedWindow else Mode.Single,
          warnings := [] }

/-- One training unit as seen by the loss accumulation of `training`: the
scalar `wloss.sum().item()` produced for the unit and the number of rows
`batch['input_ids'].shape[0]`. -/
structure TrainUnit where
  wloss_sum : ℝ
  rows : ℕ

/-- Error raised by the epoch-level loss normalization (Python
`ZeroDivisionError`). -/
inductive TrainError
  | zeroDivision
deriving DecidableEq

/-- Per-unit accumulation step of `loss_batches` in `training`: with weighting
the unit loss is added as is; otherwise, with a fixed batch size, it is first
multiplied by the number of rows of the unit; otherwise it is added as is. -/
noncomputable def training_loss_step (batches weighting : Bool)
    (loss_batches : ℝ) (u : TrainUnit) : ℝ :=
  if weighting then loss_batches + u.wloss_sum
  else if batches then loss_batches + u.wloss_sum * (u.rows : ℝ)
  else loss_batches + u.wloss_sum

/-- Epoch-level training loss returned by `training`: fold the accumulation
over the training stream and divide by `len(train_set.sampler) * GPUS`
(`sampler_len` is the number of training documents, `gpus` the device count).
Python raises `ZeroDivisionError` when the denominator is zero, modelled as
`Except.error`. -/
noncomputable def training_loss (units : List TrainUnit)
    (batches weighting : Bool) (sampler_len gpus : ℕ) : Except TrainError ℝ :=
  let loss_batches := units.foldl (training_loss_step batches weighting) 0
  if sampler_len * gpus = 0 then Except.error TrainError.zeroDivision
  else Except.ok (loss_batches / ((sampler_len : ℝ) * (gpus : ℝ)))

/-- Modelled from the spec: per-class confusion state of `metrics.TaskMetrics`
(the `metrics` module is imported by the script but is not among the sources);
spec §3 ClassConfusionState: per class, true-positive, false-positive and
false-negative counters. -/
structure ConfusionState (C : ℕ) where
  tp : Fin C → ℕ
  fp : Fin C → ℕ
  fn : Fin C → ℕ

/-- Modelled from the spec: a fresh accumulator with all counters zero. -/
def ConfusionState.init (C : ℕ) : ConfusionState C :=
  { tp := fun _ => 0, fp := fun _ => 0, fn := fun _ => 0 }

/-- Modelled from the spec (§4.2 `add_batch`): for one aligned pair `(g, p)`,
if `g = p` increment the true-positive counter of class `g`, otherwise
increment the false-negative counter of class `g` and the false-positive
counter of class `p`. -/
def add_pair (C : ℕ) (s : ConfusionState C) (g p : Fin C) : ConfusionState C :=
  if g = p then
    { s with tp := Function.update s.tp g (s.tp g + 1) }
  else
    { s with fn := Function.update s.fn g (s.fn g + 1),
             fp := Function.update s.fp p (s.fp p + 1) }

/-- Modelled from the spec (§4.2): `add_batch` over parallel sequences of
aligned gold/predicted pairs. -/
def add_batch (C : ℕ) (s : ConfusionState C)
    (pairs : List (Fin C × Fin C)) : ConfusionState C :=
  pairs.foldl (fun t gp => add_pair C t gp.1 gp.2) s

/-- One raw document record as consumed by the collate functions: the list of
chunk token-id sequences and the aligned per-chunk labels. -/
structure RawDoc where
  input_ids : List (List ℤ)
  labels : List ℕ
deriving DecidableEq

/-- Models `_collate_fn`: passes the chunk token ids through and wraps every
label into a singleton row. -/
def collate_fn (batch : RawDoc) : List (List ℤ) × List (List ℕ) :=
  (batch.input_ids, batch.labels.map (fun lab => [lab]))

/-- Models `_collate_fn_batch`: for every document of the batch it keeps
`b['input_ids'][0]` and `b['labels'][0]` only; indexing an empty list raises
`IndexError` in Python, modelled by `Option`. -/
def collate_fn_batch : List RawDoc → Option (List (List ℤ) × List (List ℕ))
  | [] => some ([], [])
  | b :: rest => do
    let ids0 ← b.input_ids.head?
    let lab0 ← b.labels.head?
    let (ids, labs) ← collate_fn_batch rest
    pure (ids0 :: ids, [lab0] :: labs)

/-- C1: in WeightedWindow mode with at least two chunks, `_compute_wloss`
computes `mid = floor(M / 2)`, normalized positions `x_i = i / mid`, Gaussian
density weights `(2 * pi * sigma^2) ^ (-1/2) * exp(-0.5 * (x_i - 0)^2 / sigma^2)`
with `sigma = 1`, multiplies the `1 × M` weight row against the `M × C` stacked
chunk-logits matrix, and returns the cross-entropy between the combined `1 × C`
row and the shared document label together with that row. -/
theorem compute_wloss_weighted_matches_gaussian_spec (m C : ℕ) (hm : 2 ≤ m + 1)
    (logits : Fin (m + 1) → Fin C → ℝ) (labels : Fin (m + 1) → Fin C) :
    compute_wloss m C true logits labels =
      (cross_entropy C
        (fun j => ∑ i : Fin (m + 1), spec_gaussian_weight (m + 1) (i : ℕ) * logits i j)
        (labels 0),
       fun j => ∑ i : Fin (m + 1), spec_gaussian_weight (m + 1) (i : ℕ) * logits i j) := by
  have hmid : 0 < (m + 1) / 2 := Nat.div_pos hm (by norm_num)
  have hw : window_weights m =
      fun i : Fin (m + 1) => spec_gaussian_weight (m + 1) (i : ℕ) := by
    funext i
    simp [window_weights, hmid, normal_density, spec_gaussian_weight]
  simp [compute_wloss, hw]

/-- Witness for C1 at a unit of two chunks and one class with zero logits. -/
theorem compute_wloss_weighted_matches_gaussian_spec_witness :
    2 ≤ 1 + 1 ∧
    compute_wloss 1 1 true (fun _ _ => (0 : ℝ)) (fun _ => (0 : Fin 1)) =
      (cross_entropy 1
        (fun j => ∑ i : Fin 2, spec_gaussian_weight 2 (i : ℕ) *
          (fun (_ : Fin 2) (_ : Fin 1) => (0 : ℝ)) i j)
        ((fun _ : Fin 2 => (0 : Fin 1)) 0),
       fun j => ∑ i : Fin 2, spec_gaussian_weight 2 (i : ℕ) *
          (fun (_ : Fin 2) (_ : Fin 1) => (0 : ℝ)) i j) :=
  ⟨by decide,
   compute_wloss_weighted_matches_gaussian_spec 1 1 (by decide) _ _⟩

/-- C2: in the single (non-batch) mode without weighting, `_compute_wloss`
applies a weight row of ones of length `M` through the same matrix
multiplication as the weighted branch — the combined row is the column sum of
the `M × C` logits matrix, not the column mean — and the loss is the
cross-entropy of that combined row against the label at index 0. -/
theorem compute_wloss_unweighted_ones_matmul (m C : ℕ)
    (logits : Fin (m + 1) → Fin C → ℝ) (labels : Fin (m + 1) → Fin C) :
    compute_wloss m C false logits labels =
      (cross_entropy C (fun j => ∑ i, logits i j) (labels 0),
       fun j => ∑ i, logits i j) ∧
    ∃ (g : Fin 2 → Fin 1 → ℝ) (l : Fin 2 → Fin 1),
      (compute_wloss 1 1 false g l).2 ≠ fun j => (∑ i, g i j) / 2 := by
  constructor
  · simp [compute_wloss]
  · refine ⟨fun _ _ => 1, fun _ => 0, ?_⟩
    intro hcontra
    have h0 := congrFun hcontra 0
    simp [compute_wloss, Fin.sum_univ_two] at h0

/-- Standard-Gaussian densities are positive. -/
theorem normal_density_pos (x : ℝ) : 0 < normal_density x 0 1 := by
  unfold normal_density
  have hbase : (0 : ℝ) < (2 * Real.pi * (1 : ℝ) ^ 2) ^ (-(1 / 2) : ℝ) :=
    Real.rpow_pos_of_pos (by positivity) _
  exact mul_pos hbase (Real.exp_pos _)

/-- Standard-Gaussian densities are maximal at the mean. -/
theorem normal_density_le_at_zero (x : ℝ) : normal_density x 0 1 ≤ normal_density 0 0 1 := by
  unfold normal_density
  have hbase : (0 : ℝ) < (2 * Real.pi * (1 : ℝ) ^ 2) ^ (-(1 / 2) : ℝ) :=
    Real.rpow_pos_of_pos (by positivity) _
  have hexp : Real.exp (-(1 / 2) * (x - 0) ^ 2 / 1 ^ 2) ≤
      Real.exp (-(1 / 2) * ((0 : ℝ) - 0) ^ 2 / 1 ^ 2) := by
    apply Real.exp_le_exp.mpr
    have hsq := sq_nonneg (x - 0)
    nlinarith
  exact mul_le_mul_of_nonneg_left hexp hbase.le

/-- Every window weight is positive, in both the decayed and the single-chunk
branch. -/
theorem window_weights_pos (m : ℕ) (i : Fin (m + 1)) : 0 < window_weights m i := by
  unfold window_weights
  by_cases h : 0 < (m + 1) / 2
  · simp only [if_pos h]
    exact normal_density_pos _
  · simp only [if_neg h]
    norm_num

/-- C3: for a WeightedWindow unit with more than one chunk, the first chunk is
never weighted less than any later chunk and the sum of the weights is
strictly positive. -/
theorem window_weights_first_max_sum_pos (m : ℕ) (hm : 1 < m + 1) :
    (∀ i, window_weights m 0 ≥ window_weights m i) ∧
    0 < ∑ i, window_weights m i := by
  have hmid : 0 < (m + 1) / 2 := Nat.div_pos hm (by norm_num)
  refine ⟨?_, Finset.sum_pos (fun i _ => window_weights_pos m i) Finset.univ_nonempty⟩
  intro i
  have h0 : window_weights m 0 = normal_density 0 0 1 := by
    simp [window_weights, if_pos hmid]
  have hi : window_weights m i =
      normal_density ((i : ℝ) / (((m + 1) / 2 : ℕ) : ℝ)) 0 1 := by
    simp [window_weights, if_pos hmid]
  rw [ge_iff_le, h0, hi]
  exact normal_density_le_at_zero _

/-- Witness for C3 at a unit of two chunks. -/
theorem window_weights_first_max_sum_pos_witness :
    1 < 1 + 1 ∧
    ((∀ i, window_weights 1 0 ≥ window_weights 1 i) ∧
     0 < ∑ i, window_weights 1 i) :=
  ⟨by decide, window_weights_first_max_sum_pos 1 (by decide)⟩

/-- C4: for a WeightedWindow unit with exactly one chunk, the `mid = 0` branch
is taken: the weight vector is constantly `1` and the combined logits returned
by `_compute_wloss` with weighting are exactly the single chunk's logits, the
loss being their cross-entropy against the label. -/
theorem compute_wloss_single_chunk_identity (C : ℕ)
    (logits : Fin 1 → Fin C → ℝ) (labels : Fin 1 → Fin C) :
    window_weights 0 = (fun _ => (1 : ℝ)) ∧
    compute_wloss 0 C true logits labels =
      (cross_entropy C (logits 0) (labels 0), logits 0) := by
  have hw : window_weights 0 = fun _ : Fin 1 => (1 : ℝ) := by
    simp [window_weights]
  refine ⟨hw, ?_⟩
  have hcomb : (fun j => ∑ i, window_weights 0 i * logits i j) = logits 0 := by
    funext j
    simp [hw]
  simp [compute_wloss, hw]

/-- C5: when a truthy fixed batch size and weighting are both requested, the
configuration resolution does not fail: weighting is disabled, the
incompatibility warning is emitted, and the run continues in fixed-batch mode. -/
theorem resolve_config_batch_weighting_conflict (cfg : RunConfig) (n : ℕ)
    (hb : cfg.batch_size = some n) (hn : n ≠ 0) (hw : cfg.weighting = true) :
    (resolve_config cfg).weighting = false ∧
    ConfigWarning.weightingIncompatibleWithBatching ∈ (resolve_config cfg).warnings ∧
    (resolve_config cfg).mode = Mode.FixedBatch := by
  simp [resolve_config, option_truthy, hb, hn, hw]

/-- Witness for C5 at batch size 4 with weighting requested. -/
theorem resolve_config_batch_weighting_conflict_witness :
    (RunConfig.mk (some 4) true none).batch_size = some 4 ∧
    (4 : ℕ) ≠ 0 ∧
    (RunConfig.mk (some 4) true none).weighting = true ∧
    ((resolve_config (RunConfig.mk (some 4) true none)).weighting = false ∧
     ConfigWarning.weightingIncompatibleWithBatching ∈
       (resolve_config (RunConfig.mk (some 4) true none)).warnings ∧
     (resolve_config (RunConfig.mk (some 4) true none)).mode = Mode.FixedBatch) :=
  ⟨rfl, by decide, rfl,
   resolve_config_batch_weighting_conflict (RunConfig.mk (some 4) true none) 4
     rfl (by decide) rfl⟩

/-- Folding the per-unit accumulation equals adding the sum of the per-unit
contributions to the starting accumulator. -/
theorem foldl_training_loss_step (batches weighting : Bool)
    (units : List TrainUnit) (c : ℝ) :
    units.foldl (training_loss_step batches weighting) c =
      c + (units.map (fun u =>
        if weighting then u.wloss_sum
        else if batches then u.wloss_sum * (u.rows : ℝ)
        else u.wloss_sum)).sum := by
  induction units generalizing c with
  | nil => simp
  | cons u rest ih =>
      rw [List.foldl_cons, ih]
      cases weighting <;> cases batches <;>
        simp [training_loss_step] <;> ring

/-- C6: the training loss returned for one epoch equals the sum over training
units of the unit loss — multiplied by the number of rows of the unit when a
fixed batch size is configured without weighting — divided by the number of
training documents times the device count. -/
theorem training_loss_eq_normalized_sum (units : List TrainUnit)
    (batches weighting : Bool) (sampler_len gpus : ℕ)
    (h : sampler_len * gpus ≠ 0) :
    training_loss units batches weighting sampler_len gpus =
      Except.ok ((units.map (fun u =>
        if weighting then u.wloss_sum
        else if batches then u.wloss_sum * (u.rows : ℝ)
        else u.wloss_sum)).sum / ((sampler_len : ℝ) * (gpus : ℝ))) := by
  simp [training_loss, h, foldl_training_loss_step]

/-- Witness for C6 at one fixed-batch unit of 3 rows and unit loss 2 on one
document and one device. -/
theorem training_loss_eq_normalized_sum_witness :
    (1 * 1 ≠ 0) ∧
    training_loss [TrainUnit.mk 2 3] true false 1 1 =
      Except.ok ((([TrainUnit.mk 2 3] : List TrainUnit).map (fun u =>
        if false then u.wloss_sum
        else if true then u.wloss_sum * (u.rows : ℝ)
        else u.wloss_sum)).sum / (((1 : ℕ) : ℝ) * ((1 : ℕ) : ℝ))) :=
  ⟨by decide, training_loss_eq_normalized_sum [TrainUnit.mk 2 3] true false 1 1 (by decide)⟩

/-- C8: one epoch over an empty training stream (no units, sampler length 0)
fails with the zero-division error instead of silently returning a number. -/
theorem training_loss_empty_stream_error (batches weighting : Bool) (gpus : ℕ) :
    training_loss [] batches weighting 0 gpus =
      Except.error TrainError.zeroDivision := by
  simp [training_loss]

/-- Effect of one aligned pair on a true-positive counter. -/
theorem add_pair_tp (C : ℕ) (s : ConfusionState C) (g p c : Fin C) :
    (add_pair C s g p).tp c = s.tp c + (if g = p ∧ g = c then 1 else 0) := by
  unfold add_pair
  by_cases hgp : g = p
  · rw [if_pos hgp]
    show Function.update s.tp g (s.tp g + 1) c = _
    by_cases hgc : g = c
    · subst hgc
      rw [Function.update_same, if_pos ⟨hgp, rfl⟩]
    · rw [Function.update_noteq (fun hh => hgc hh.symm),
        if_neg (fun hh => hgc hh.2)]
      omega
  · rw [if_neg hgp]
    show s.tp c = _
    rw [if_neg (fun hh => hgp hh.1)]
    omega

/-- Effect of one aligned pair on a false-negative counter. -/
theorem add_pair_fn (C : ℕ) (s : ConfusionState C) (g p c : Fin C) :
    (add_pair C s g p).fn c = s.fn c + (if ¬g = p ∧ g = c then 1 else 0) := by
  unfold add_pair
  by_cases hgp : g = p
  · rw [if_pos hgp]
    show s.fn c = _
    rw [if_neg (fun hh => hh.1 hgp)]
    omega
  · rw [if_neg hgp]
    show Function.update s.fn g (s.fn g + 1) c = _
    by_cases hgc : g = c
    · subst hgc
      rw [Function.update_same, if_pos ⟨hgp, rfl⟩]
    · rw [Function.update_noteq (fun hh => hgc hh.symm),
        if_neg (fun hh => hgc hh.2)]
      omega

/-- Effect of one aligned pair on a false-positive counter. -/
theorem add_pair_fp (C : ℕ) (s : ConfusionState C) (g p c : Fin C) :
    (add_pair C s g p).fp c = s.fp c + (if ¬g = p ∧ p = c then 1 else 0) := by
  unfold add_pair
  by_cases hgp : g = p
  · rw [if_pos hgp]
    show s.fp c = _
    rw [if_neg (fun hh => hh.1 hgp)]
    omega
  · rw [if_neg hgp]
    show Function.update s.fp p (s.fp p + 1) c = _
    by_cases hpc : p = c
    · subst hpc
      rw [Function.update_same, if_pos ⟨hgp, rfl⟩]
    · rw [Function.update_noteq (fun hh => hpc hh.symm),
        if_neg (fun hh => hpc hh.2)]
      omega

/-- Effect of one aligned pair on the total true-positive count. -/
theorem add_pair_sum_tp (C : ℕ) (s : ConfusionState C) (g p : Fin C) :
    ∑ c, (add_pair C s g p).tp c = (∑ c, s.tp c) + (if g = p then 1 else 0) := by
  simp only [add_pair_tp, Finset.sum_add_distrib]
  by_cases hgp : g = p
  · simp [hgp, Finset.sum_ite_eq]
  · simp [hgp]

/-- After a batch of aligned pairs, `tp c + fn c` has grown by the number of
gold labels equal to `c` in the batch. -/
theorem add_batch_tp_add_fn (C : ℕ) (s : ConfusionState C)
    (pairs : List (Fin C × Fin C)) (c : Fin C) :
    (add_batch C s pairs).tp c + (add_batch C s pairs).fn c =
      s.tp c + s.fn c + pairs.countP (fun gp => decide (gp.1 = c)) := by
  induction pairs generalizing s with
  | nil => simp [add_batch]
  | cons gp rest ih =>
      have hstep : add_batch C s (gp :: rest) =
          add_batch C (add_pair C s gp.1 gp.2) rest := rfl
      rw [hstep, ih, List.countP_cons, add_pair_tp, add_pair_fn]
      simp only [decide_eq_true_eq]
      split_ifs <;> omega

/-- After a batch of aligned pairs, `tp c + fp c` has grown by the number of
predicted labels equal to `c` in the batch. -/
theorem add_batch_tp_add_fp (C : ℕ) (s : ConfusionState C)
    (pairs : List (Fin C × Fin C)) (c : Fin C) :
    (add_batch C s pairs).tp c + (add_batch C s pairs).fp c =
      s.tp c + s.fp c + pairs.countP (fun gp => decide (gp.2 = c)) := by
  induction pairs generalizing s with
  | nil => simp [add_batch]
  | cons gp rest ih =>
      have hstep : add_batch C s (gp :: rest) =
          add_batch C (add_pair C s gp.1 gp.2) rest := rfl
      rw [hstep, ih, List.countP_cons, add_pair_tp, add_pair_fp]
      simp only [decide_eq_true_eq]
      split_ifs <;> omega

/-- After a batch of aligned pairs, the total true-positive count has grown by
the number of correct decisions in the batch. -/
theorem add_batch_sum_tp (C : ℕ) (s : ConfusionState C)
    (pairs : List (Fin C × Fin C)) :
    ∑ c, (add_batch C s pairs).tp c =
      (∑ c, s.tp c) + pairs.countP (fun gp => decide (gp.1 = gp.2)) := by
  induction pairs generalizing s with
  | nil => simp [add_batch]
  | cons gp rest ih =>
      have hstep : add_batch C s (gp :: rest) =
          add_batch C (add_pair C s gp.1 gp.2) rest := rfl
      rw [hstep, ih, List.countP_cons, add_pair_sum_tp]
      simp only [decide_eq_true_eq]
      split_ifs <;> omega

/-- A sequence of `add_batch` calls is one `add_batch` over the concatenated
pairs. -/
theorem foldl_add_batch_flatten (C : ℕ) (s : ConfusionState C)
    (calls : List (List (Fin C × Fin C))) :
    calls.foldl (add_batch C) s = add_batch C s calls.flatten := by
  induction calls generalizing s with
  | nil => simp [add_batch]
  | cons a rest ih =>
      simp [List.foldl_cons, ih, add_batch, List.foldl_append]

/-- C7: after any sequence of `add_batch` calls starting from a fresh
accumulator, for every class `c` the counters satisfy: `tp c + fn c` equals
the number of gold labels equal to `c` seen so far, `tp c + fp c` equals the
number of predicted labels equal to `c` seen so far, and the total
true-positive count equals the number of correct decisions seen so far. -/
theorem task_metrics_confusion_invariant (C : ℕ)
    (calls : List (List (Fin C × Fin C))) :
    (∀ c, (calls.foldl (add_batch C) (ConfusionState.init C)).tp c +
          (calls.foldl (add_batch C) (ConfusionState.init C)).fn c =
          calls.flatten.countP (fun gp => decide (gp.1 = c))) ∧
    (∀ c, (calls.foldl (add_batch C) (ConfusionState.init C)).tp c +
          (calls.foldl (add_batch C) (ConfusionState.init C)).fp c =
          calls.flatten.countP (fun gp => decide (gp.2 = c))) ∧
    (∑ c, (calls.foldl (add_batch C) (ConfusionState.init C)).tp c =
          calls.flatten.countP (fun gp => decide (gp.1 = gp.2))) := by
  rw [foldl_add_batch_flatten]
  refine ⟨fun c => ?_, fun c => ?_, ?_⟩
  · rw [add_batch_tp_add_fn]
    simp [ConfusionState.init]
  · rw [add_batch_tp_add_fp]
    simp [ConfusionState.init]
  · rw [add_batch_sum_tp]
    simp [ConfusionState.init]

/-- C9: in fixed-batch mode the collation keeps exactly the chunk at index 0
of every document of the batch — its token-id sequence and its label (the
label wrapped into a singleton row) — and discards all later chunks. -/
theorem collate_fn_batch_keeps_first_chunk (batch : List RawDoc)
    (h : ∀ b ∈ batch, b.input_ids ≠ [] ∧ b.labels ≠ []) :
    collate_fn_batch batch =
      some (batch.map (fun b => b.input_ids.headI),
            batch.map (fun b => [b.labels.headI])) := by
  induction batch with
  | nil => simp [collate_fn_batch]
  | cons b rest ih =>
      obtain ⟨hids, hlabs⟩ := h b (List.mem_cons_self b rest)
      have hrest := ih (fun x hx => h x (List.mem_cons_of_mem b hx))
      rw [collate_fn_batch, hrest]
      cases hI : b.input_ids with
      | nil => exact absurd hI hids
      | cons x xs =>
          cases hL : b.labels with
          | nil => exact absurd hL hlabs
          | cons y ys =>
              simp [hI, hL]

/-- Witness for C9 at a batch of two documents, one of them with two chunks. -/
theorem collate_fn_batch_keeps_first_chunk_witness :
    (∀ b ∈ [RawDoc.mk [[1, 2], [3]] [0, 0], RawDoc.mk [[5]] [1]],
      b.input_ids ≠ [] ∧ b.labels ≠ []) ∧
    collate_fn_batch [RawDoc.mk [[1, 2], [3]] [0, 0], RawDoc.mk [[5]] [1]] =
      some ([[1, 2], [5]], [[0], [1]]) :=
  ⟨by decide, by
    rw [collate_fn_batch_keeps_first_chunk _ (by decide)]
    rfl⟩

/-- C10: in weighted-window mode and in single non-batch mode, the loss, the
combined logits and the recorded gold/predicted pair depend only on the label
at index 0 of the unit: two units identical except in labels at later indices
produce the same `_compute_wloss` output and the same metrics record. -/
theorem combine_depends_only_on_first_label (m c : ℕ) (w : Bool)
    (logits : Fin (m + 1) → Fin (c + 1) → ℝ)
    (labels1 labels2 : Fin (m + 1) → Fin (c + 1))
    (h : labels1 0 = labels2 0) :
    compute_wloss m (c + 1) w logits labels1 =
      compute_wloss m (c + 1) w logits labels2 ∧
    val_record m c w logits labels1 = val_record m c w logits labels2 := by
  have hcw : compute_wloss m (c + 1) w logits labels1 =
      compute_wloss m (c + 1) w logits labels2 := by
    cases w <;> simp [compute_wloss, h]
  exact ⟨hcw, by simp [val_record, hcw, h]⟩

/-- Witness for C10 at a two-chunk two-class unit whose labels agree at index 0
and differ at index 1. -/
theorem combine_depends_only_on_first_label_witness :
    (fun _ : Fin 2 => (0 : Fin 2)) 0 =
      (fun i : Fin 2 => if i = 0 then (0 : Fin 2) else 1) 0 ∧
    (compute_wloss 1 2 true (fun _ _ => (0 : ℝ)) (fun _ => (0 : Fin 2)) =
       compute_wloss 1 2 true (fun _ _ => (0 : ℝ))
         (fun i => if i = 0 then (0 : Fin 2) else 1) ∧
     val_record 1 1 true (fun _ _ => (0 : ℝ)) (fun _ => (0 : Fin 2)) =
       val_record 1 1 true (fun _ _ => (0 : ℝ))
         (fun i => if i = 0 then (0 : Fin 2) else 1)) :=
  ⟨by decide,
   combine_depends_only_on_first_label 1 1 true (fun _ _ => (0 : ℝ))
     (fun _ => (0 : Fin 2)) (fun i => if i = 0 then (0 : Fin 2) else 1)
     (by decide)⟩
